import Mathlib

/-!
Shallow embedding of the procedural dungeon generator and tile/collision model
of the repository's single source file (src/main.rs), together with proofs of
the specification's claims about it.

The map is `Vec<Vec<Tile>>` in the source, indexed `map[x][y]`; it is embedded
as `List (List Tile)` with the outer index `x`.  The i32 coordinates become
`Int`; Rust's `as usize` casts (applied only to nonnegative in-bounds values in
every claim considered here) become `Int.toNat`.  The `rand::random_range(lo..hi)`
calls are modelled by a pre-drawn stream of uniform naturals: the value produced
for a request `lo..hi` is `lo + stream n % (hi - lo)`, which ranges exactly over
`[lo, hi)` when `lo < hi`, which is the contract of `random_range`.
-/

/-- Color triple of the rendering toolkit; carried by objects, irrelevant to the core. -/
structure Color where
  r : Nat
  g : Nat
  b : Nat
deriving DecidableEq

/-- Tile of the grid (`struct Tile` in the source). -/
structure Tile where
  blocked : Bool
  block_sight : Bool
deriving DecidableEq

/-- Constructor `Tile::empty()`. -/
def Tile.empty : Tile := { blocked := false, block_sight := false }

/-- Constructor `Tile::wall()`. -/
def Tile.wall : Tile := { blocked := true, block_sight := true }

/-- The map type `type Map = Vec<Vec<Tile>>`, outer index `x`, inner index `y`. -/
abbrev Map : Type := List (List Tile)

def MAP_WIDTH : Int := 80

def MAP_HEIGHT : Int := 45

def ROOM_MAX_SIZE : Int := 10

def ROOM_MIN_SIZE : Int := 6

def MAX_ROOMS : Int := 30

/-- Reading `map[x as usize][y as usize]`. -/
def tileAt (m : Map) (x y : Int) : Tile :=
  (m.getD x.toNat []).getD y.toNat Tile.wall

/-- Writing `map[x as usize][y as usize] = t`. -/
def setTile (m : Map) (x y : Int) (t : Tile) : Map :=
  m.set x.toNat ((m.getD x.toNat []).set y.toNat t)

/-- Rectangle on the map (`struct Rect`). -/
structure Rect where
  x1 : Int
  y1 : Int
  x2 : Int
  y2 : Int
deriving DecidableEq

/-- The `PartialEq` implementation written for `Rect` in the source: it compares
each rectangle's first corner with the *other* rectangle's second corner. -/
def Rect.eq (a b : Rect) : Bool :=
  (a.x1 == b.x2) && (a.x2 == b.x1) && (a.y1 == b.y2) && (a.y2 == b.y1)

/-- `Rect::new(x, y, w, h)`. -/
def Rect.new (x y w h : Int) : Rect :=
  { x1 := x, y1 := y, x2 := x + w, y2 := y + h }

/-- `Rect::center()`; Rust's `i32` division truncates toward zero, which is `Int.tdiv`. -/
def Rect.center (r : Rect) : Int × Int :=
  ((r.x1 + r.x2).tdiv 2, (r.y1 + r.y2).tdiv 2)

/-- `Rect::intersects_with(other)`. -/
def Rect.intersects_with (a b : Rect) : Bool :=
  decide (a.x1 ≤ b.x2) && decide (a.x2 ≥ b.x1) && decide (a.y1 ≤ b.y2) && decide (a.y2 ≥ b.y1)

/-- Entity (`struct Object`). -/
structure Object where
  x : Int
  y : Int
  char : Char
  color : Color
deriving DecidableEq

/-- `struct Game`, holding the map. -/
structure Game where
  map : Map

/-- `Object::move_by(dx, dy, game)`: commit the move when the target tile is not
blocked, otherwise do nothing.  The Rust method mutates `self` and returns `()`;
here the updated object is the result. -/
def Object.move_by (o : Object) (dx dy : Int) (game : Game) : Object :=
  if (tileAt game.map (o.x + dx) (o.y + dy)).blocked = false then
    { o with x := o.x + dx, y := o.y + dy }
  else
    o

/-- Integer range `lo..hi` of a Rust for loop, as the list of its values in order. -/
def intRange (lo hi : Int) : List Int :=
  (List.range (hi - lo).toNat).map (fun i : Nat => lo + (i : Int))

/-- Inner loop of the carving code: `for y in ys { map[x][y] = Tile::empty() }`. -/
def carveCol (x : Int) (ys : List Int) (m : Map) : Map :=
  ys.foldl (fun acc yy => setTile acc x yy Tile.empty) m

/-- Nested carving loops: `for x in xs { for y in ys { map[x][y] = Tile::empty() } }`. -/
def carveRect (xs ys : List Int) (m : Map) : Map :=
  xs.foldl (fun acc xx => carveCol xx ys acc) m

/-- `create_room(room, map)`: `for x in (room.x1+1)..room.x2 { for y in (room.y1+1)..room.y2 { .. } }`. -/
def create_room (room : Rect) (m : Map) : Map :=
  carveRect (intRange (room.x1 + 1) room.x2) (intRange (room.y1 + 1) room.y2) m

/-- `create_tunnel(x1, x2, y, y2, map)`: a double loop over
`min(x1,x2)..max(x1,x2)+1` and `min(y,y2)..max(y,y2)+1`. -/
def create_tunnel (x1 x2 y y2 : Int) (m : Map) : Map :=
  carveRect (intRange (min x1 x2) (max x1 x2 + 1)) (intRange (min y y2) (max y y2 + 1)) m

/-- State of the random source: a pre-drawn stream of uniform naturals and a cursor. -/
structure RngState where
  stream : Nat → Nat
  idx : Nat

/-- Model of `rand::random_range(lo..hi)`: the next stream value reduced into `[lo, hi)`. -/
def random_range (lo hi : Int) (s : RngState) : Int × RngState :=
  (lo + (s.stream s.idx : Int) % (hi - lo), { stream := s.stream, idx := s.idx + 1 })

/-- State threaded through the `make_map` loop. -/
structure GenState where
  map : Map
  rooms : List Rect
  player : Object
  rng : RngState

/-- The grid as initialized by `make_map`: every tile a wall. -/
def initialMap : Map :=
  List.replicate MAP_WIDTH.toNat (List.replicate MAP_HEIGHT.toNat Tile.wall)

/-- One iteration of the `for x in 0..MAX_ROOMS` loop of `make_map`. -/
def genStep (st : GenState) : GenState :=
  let p1 := random_range ROOM_MIN_SIZE (ROOM_MAX_SIZE + 1) st.rng
  let w := p1.1
  let p2 := random_range ROOM_MIN_SIZE (ROOM_MAX_SIZE + 1) p1.2
  let h := p2.1
  let p3 := random_range 0 (MAP_WIDTH - w) p2.2
  let x := p3.1
  let p4 := random_range 0 (MAP_HEIGHT - h) p3.2
  let y := p4.1
  let room := Rect.new x y w h
  let failed := st.rooms.any (fun other => room.intersects_with other)
  if failed = false then
    let map2 := create_room room st.map
    let cen := room.center
    let player2 :=
      if st.rooms.isEmpty then { st.player with x := cen.1, y := cen.2 } else st.player
    { map := map2, rooms := st.rooms ++ [room], player := player2, rng := p4.2 }
  else
    { map := st.map, rooms := st.rooms, player := st.player, rng := p4.2 }

/-- Running `n` iterations of the loop of `make_map`. -/
def genLoop : Nat → GenState → GenState
  | 0, st => st
  | n + 1, st => genLoop n (genStep st)

/-- The whole of `make_map` with its internal state exposed: the finished map, the
accepted rooms list, the (possibly respawned) player faithful to the source. -/
def make_map_state (player : Object) (rng : RngState) : GenState :=
  genLoop MAX_ROOMS.toNat { map := initialMap, rooms := [], player := player, rng := rng }

/-- `make_map(player)`: returns the map, mutating the player (spawn point). -/
def make_map (player : Object) (rng : RngState) : Map × Object :=
  ((make_map_state player rng).map, (make_map_state player rng).player)

/-- Rectangular well-formedness of an embedded map: `W` rows of length `H`. -/
def wellFormed (m : Map) (W H : Nat) : Prop :=
  m.length = W ∧ ∀ row ∈ m, row.length = H

/-- Second definition for the refinement comparison of claim C8, following the
spec's words: the center computed with division truncating toward the lower
value, i.e. floor division. -/
def center_floor_claimed (r : Rect) : Int × Int :=
  ((r.x1 + r.x2).fdiv 2, (r.y1 + r.y2).fdiv 2)

/-- Position actually changed by a `move_by` call. -/
def movedBy (o : Object) (dx dy : Int) (game : Game) : Prop :=
  Object.move_by o dx dy game ≠ o

instance (o : Object) (dx dy : Int) (game : Game) : Decidable (movedBy o dx dy game) :=
  inferInstanceAs (Decidable (Object.move_by o dx dy game ≠ o))

/-- Single axis-aligned step between two grid positions. -/
def isStep (p q : Int × Int) : Prop :=
  (q.1 = p.1 + 1 ∧ q.2 = p.2) ∨ (q.1 = p.1 - 1 ∧ q.2 = p.2) ∨
  (q.1 = p.1 ∧ q.2 = p.2 + 1) ∨ (q.1 = p.1 ∧ q.2 = p.2 - 1)

/-- A position inside the generated grid. -/
def inBoundsP (p : Int × Int) : Prop :=
  0 ≤ p.1 ∧ p.1 < MAP_WIDTH ∧ 0 ≤ p.2 ∧ p.2 < MAP_HEIGHT

/-- A walkable path: consecutive positions one axis-aligned step apart, every
position in bounds and on a non-blocked tile. -/
def isWalkPath (m : Map) (l : List (Int × Int)) : Prop :=
  l.Chain' isStep ∧ ∀ p ∈ l, inBoundsP p ∧ (tileAt m p.1 p.2).blocked = false

/-- Two positions joined by a walkable path (flood-fill reachability). -/
def connected (m : Map) (a b : Int × Int) : Prop :=
  ∃ l : List (Int × Int), l.head? = some a ∧ l.getLast? = some b ∧ isWalkPath m l

/-- Game with a walkable strip at row 0 of columns 0 and 1 and a wall at column 2. -/
def narrowGame : Game :=
  { map := [[Tile.empty], [Tile.empty], [Tile.wall]] }

/-- Entity standing at `(0, 0)` of `narrowGame`. -/
def walkerA : Object :=
  { x := 0, y := 0, char := '@', color := { r := 255, g := 255, b := 255 } }

/-- Entity standing at `(1, 0)` of `narrowGame`. -/
def walkerB : Object :=
  { x := 1, y := 0, char := '@', color := { r := 255, g := 255, b := 255 } }

/-- Invariant on the accepted-rooms list: pairwise non-intersecting and in bounds. -/
def roomsInv (rs : List Rect) : Prop :=
  rs.Pairwise (fun a b => a.intersects_with b = false) ∧
  ∀ r ∈ rs, 0 ≤ r.x1 ∧ r.x1 < r.x2 ∧ r.x2 ≤ MAP_WIDTH - 1 ∧
    0 ≤ r.y1 ∧ r.y1 < r.y2 ∧ r.y2 ≤ MAP_HEIGHT - 1

/-- Invariant on the map under construction: well-formed and walls on the border. -/
def mapInv (m : Map) : Prop :=
  wellFormed m MAP_WIDTH.toNat MAP_HEIGHT.toNat ∧
  ∀ x y : Int, 0 ≤ x → x < MAP_WIDTH → 0 ≤ y → y < MAP_HEIGHT →
    (x = 0 ∨ x = MAP_WIDTH - 1 ∨ y = 0 ∨ y = MAP_HEIGHT - 1) →
    tileAt m x y = Tile.wall

/-- All-zero random stream used as a concrete generation run for witnesses. -/
def zeroRng : RngState :=
  { stream := fun _ => 0, idx := 0 }

/-- The player object constructed in `main`. -/
def basePlayer : Object :=
  { x := 25, y := 23, char := '@', color := { r := 255, g := 255, b := 255 } }

/-- Random stream driving a concrete generation run: the first candidate is the
room with corners `(0,0)` and `(6,6)`, the second the room with corners
`(20,20)` and `(26,26)`, and every later candidate repeats the first room and is
rejected for intersecting it. -/
def chainStream : Nat → Nat :=
  fun n => if n = 6 then 20 else if n = 7 then 20 else 0

def chainRng : RngState :=
  { stream := chainStream, idx := 0 }

section BasicLemmas

/-- Unfolding of the intersection test into arithmetic. -/
theorem intersects_with_true_iff (a b : Rect) :
    a.intersects_with b = true ↔
      (a.x1 ≤ b.x2 ∧ b.x1 ≤ a.x2 ∧ a.y1 ≤ b.y2 ∧ b.y1 ≤ a.y2) := by
  simp [Rect.intersects_with, Bool.and_eq_true, decide_eq_true_eq, ge_iff_le, and_assoc]

/-- The intersection test is symmetric. -/
theorem intersects_with_comm (a b : Rect) :
    a.intersects_with b = b.intersects_with a := by
  have hab := intersects_with_true_iff a b
  have hba := intersects_with_true_iff b a
  rcases h1 : a.intersects_with b with _ | _ <;> rcases h2 : b.intersects_with a with _ | _
  · rfl
  · rw [h1] at hab
    rw [h2] at hba
    simp only [Bool.false_eq_true, false_iff, true_iff] at hab hba
    exact (hab ⟨hba.2.1, hba.1, hba.2.2.2, hba.2.2.1⟩).elim
  · rw [h1] at hab
    rw [h2] at hba
    simp only [Bool.false_eq_true, false_iff, true_iff] at hab hba
    exact (hba ⟨hab.2.1, hab.1, hab.2.2.2, hab.2.2.1⟩).elim
  · rfl

end BasicLemmas

/-- Claim C4: for well-formed rectangles, `intersects_with` returns true exactly
when the closed intervals `[a.x1, a.x2]`, `[b.x1, b.x2]` share a point and the
closed intervals `[a.y1, a.y2]`, `[b.y1, b.y2]` share a point; rectangles that
merely touch at an edge or a corner therefore count as intersecting. -/
theorem C4_intersects_with_iff_closed_overlap (a b : Rect)
    (hax : a.x1 ≤ a.x2) (hay : a.y1 ≤ a.y2) (hbx : b.x1 ≤ b.x2) (hby : b.y1 ≤ b.y2) :
    a.intersects_with b = true ↔
      ((∃ t : Int, a.x1 ≤ t ∧ t ≤ a.x2 ∧ b.x1 ≤ t ∧ t ≤ b.x2) ∧
       (∃ t : Int, a.y1 ≤ t ∧ t ≤ a.y2 ∧ b.y1 ≤ t ∧ t ≤ b.y2)) := by
  rw [intersects_with_true_iff]
  constructor
  · intro h
    exact ⟨⟨max a.x1 b.x1, by omega, by omega, by omega, by omega⟩,
           ⟨max a.y1 b.y1, by omega, by omega, by omega, by omega⟩⟩
  · rintro ⟨⟨t, ht⟩, ⟨s, hs⟩⟩
    omega

/-- Witness for C4: two rooms touching along the edge `x = 2` count as intersecting. -/
theorem C4_witness :
    ((Rect.new 0 0 2 2).x1 ≤ (Rect.new 0 0 2 2).x2 ∧
     (Rect.new 0 0 2 2).y1 ≤ (Rect.new 0 0 2 2).y2 ∧
     (Rect.new 2 0 2 2).x1 ≤ (Rect.new 2 0 2 2).x2 ∧
     (Rect.new 2 0 2 2).y1 ≤ (Rect.new 2 0 2 2).y2) ∧
    ((Rect.new 0 0 2 2).intersects_with (Rect.new 2 0 2 2) = true ↔
      ((∃ t : Int, (Rect.new 0 0 2 2).x1 ≤ t ∧ t ≤ (Rect.new 0 0 2 2).x2 ∧
          (Rect.new 2 0 2 2).x1 ≤ t ∧ t ≤ (Rect.new 2 0 2 2).x2) ∧
       (∃ t : Int, (Rect.new 0 0 2 2).y1 ≤ t ∧ t ≤ (Rect.new 0 0 2 2).y2 ∧
          (Rect.new 2 0 2 2).y1 ≤ t ∧ t ≤ (Rect.new 2 0 2 2).y2))) :=
  ⟨⟨by decide, by decide, by decide, by decide⟩,
   C4_intersects_with_iff_closed_overlap (Rect.new 0 0 2 2) (Rect.new 2 0 2 2)
     (by decide) (by decide) (by decide) (by decide)⟩

/-- Claim C8, counterexample: `center` uses Rust's truncating division, which
does not truncate toward the lower value on a negative sum.  At
`Rect::new(-2, 0, 1, 1)` the code returns center x `-1` while the floor-division
reading of the claim demands `-2`. -/
theorem C8_counterexample :
    Rect.center (Rect.new (-2) 0 1 1) = (-1, 0) ∧
    center_floor_claimed (Rect.new (-2) 0 1 1) = (-2, 0) ∧
    Rect.center (Rect.new (-2) 0 1 1) ≠ center_floor_claimed (Rect.new (-2) 0 1 1) := by
  refine ⟨by decide, by decide, by decide⟩

/-- Claim C8 as amended: for rectangles built by `new(x, y, w, h)` with
nonnegative inputs (all rectangles the generator ever builds), `center` equals
`((x1+x2)/2, (y1+y2)/2)` with division truncating toward the lower value (on
these inputs Rust's truncation toward zero coincides with floor division), and
the center lies inside the rectangle. -/
theorem C8_center_formula_and_inside (x y w h : Int)
    (hx : 0 ≤ x) (hy : 0 ≤ y) (hw : 0 ≤ w) (hh : 0 ≤ h) :
    Rect.center (Rect.new x y w h) = center_floor_claimed (Rect.new x y w h) ∧
    (Rect.new x y w h).x1 ≤ (Rect.center (Rect.new x y w h)).1 ∧
    (Rect.center (Rect.new x y w h)).1 ≤ (Rect.new x y w h).x2 ∧
    (Rect.new x y w h).y1 ≤ (Rect.center (Rect.new x y w h)).2 ∧
    (Rect.center (Rect.new x y w h)).2 ≤ (Rect.new x y w h).y2 := by
  have hdx : (x + (x + w)).tdiv 2 = (x + (x + w)) / 2 := by
    rw [Int.tdiv_eq_ediv] <;> omega
  have hdy : (y + (y + h)).tdiv 2 = (y + (y + h)) / 2 := by
    rw [Int.tdiv_eq_ediv] <;> omega
  have hfx : (x + (x + w)).fdiv 2 = (x + (x + w)) / 2 := by
    rw [Int.fdiv_eq_ediv] <;> omega
  have hfy : (y + (y + h)).fdiv 2 = (y + (y + h)) / 2 := by
    rw [Int.fdiv_eq_ediv] <;> omega
  refine ⟨?_, ?_, ?_, ?_, ?_⟩ <;>
    simp only [Rect.center, Rect.new, center_floor_claimed, hdx, hdy, hfx, hfy] <;>
    omega

/-- Witness for C8's amended theorem at the concrete room `new(2, 3, 6, 6)`. -/
theorem C8_witness :
    ((0 : Int) ≤ 2 ∧ (0 : Int) ≤ 3 ∧ (0 : Int) ≤ 6) ∧
    (Rect.center (Rect.new 2 3 6 6) = center_floor_claimed (Rect.new 2 3 6 6) ∧
     (Rect.new 2 3 6 6).x1 ≤ (Rect.center (Rect.new 2 3 6 6)).1 ∧
     (Rect.center (Rect.new 2 3 6 6)).1 ≤ (Rect.new 2 3 6 6).x2 ∧
     (Rect.new 2 3 6 6).y1 ≤ (Rect.center (Rect.new 2 3 6 6)).2 ∧
     (Rect.center (Rect.new 2 3 6 6)).2 ≤ (Rect.new 2 3 6 6).y2) :=
  ⟨⟨by decide, by decide, by decide⟩,
   C8_center_formula_and_inside 2 3 6 6 (by decide) (by decide) (by decide) (by decide)⟩

/-- Claim C10: `Rect`'s equality is not reflexive.  Every rectangle built by
`new(x, y, w, h)` with `w > 0` or `h > 0` compares unequal to itself, because the
implementation matches each corner against the other rectangle's opposite
corner; `r == r` holds exactly when `x1 = x2` and `y1 = y2`. -/
theorem C10_rect_eq_not_reflexive :
    (∀ x y w h : Int, 0 < w ∨ 0 < h →
      Rect.eq (Rect.new x y w h) (Rect.new x y w h) = false) ∧
    (∀ r : Rect, Rect.eq r r = true ↔ (r.x1 = r.x2 ∧ r.y1 = r.y2)) := by
  constructor
  · intro x y w h hwh
    have : ¬ (Rect.eq (Rect.new x y w h) (Rect.new x y w h) = true) := by
      simp only [Rect.eq, Rect.new, Bool.and_eq_true, beq_iff_eq]
      omega
    rcases hb : Rect.eq (Rect.new x y w h) (Rect.new x y w h) with _ | _
    · rfl
    · exact absurd hb this
  · intro r
    simp only [Rect.eq, Bool.and_eq_true, beq_iff_eq]
    omega

/-- Witness for C10 at the concrete rectangle `new(0, 0, 1, 1)`. -/
theorem C10_witness :
    ((0 : Int) < 1 ∨ (0 : Int) < 1) ∧
    Rect.eq (Rect.new 0 0 1 1) (Rect.new 0 0 1 1) = false :=
  ⟨Or.inl (by decide), C10_rect_eq_not_reflexive.1 0 0 1 1 (Or.inl (by decide))⟩

section MapLemmas

/-- A tile read depends only on the truncated coordinates. -/
theorem tileAt_congr (m : Map) {x y x' y' : Int} (hx : x'.toNat = x.toNat)
    (hy : y'.toNat = y.toNat) : tileAt m x' y' = tileAt m x y := by
  simp [tileAt, hx, hy]

/-- Full characterization of a single tile write: the written position changes
to the new tile exactly when both indices coincide after truncation and the
write is within the nested lists; every other position is untouched. -/
theorem tileAt_setTile (m : Map) (x y x' y' : Int) (t : Tile) :
    tileAt (setTile m x y t) x' y' =
      if x'.toNat = x.toNat ∧ y'.toNat = y.toNat ∧ x.toNat < m.length ∧
          y.toNat < (m.getD x.toNat []).length then t
      else tileAt m x' y' := by
  simp only [tileAt, setTile, List.getD_eq_getElem?_getD]
  rw [List.getElem?_set]
  by_cases hxx : x.toNat = x'.toNat
  · rw [if_pos hxx]
    by_cases hxl : x.toNat < m.length
    · rw [if_pos hxl]
      simp only [Option.getD_some]
      rw [List.getElem?_set]
      by_cases hyy : y.toNat = y'.toNat
      · rw [if_pos hyy]
        by_cases hyl : y.toNat < (m[x.toNat]?.getD []).length
        · rw [if_pos hyl, if_pos ⟨hxx.symm, hyy.symm, hxl, hyl⟩]
          rfl
        · rw [if_neg hyl, if_neg (by intro hcon; exact hyl hcon.2.2.2)]
          rw [← hxx, ← hyy, List.getElem?_eq_none (by omega)]
      · rw [if_neg hyy, if_neg (by intro hcon; exact hyy (hcon.2.1.symm)), ← hxx]
    · rw [if_neg hxl, if_neg (by intro hcon; exact hxl hcon.2.2.1)]
      rw [← hxx, List.getElem?_eq_none (show m.length ≤ x.toNat by omega)]
  · rw [if_neg hxx, if_neg (by intro hcon; exact hxx (hcon.1.symm))]

/-- A tile write keeps the outer and inner list lengths. -/
theorem wellFormed_setTile {m : Map} {W H : Nat} (hwf : wellFormed m W H)
    (x y : Int) (t : Tile) : wellFormed (setTile m x y t) W H := by
  obtain ⟨hlen, hrows⟩ := hwf
  refine ⟨by simpa [setTile] using hlen, ?_⟩
  intro row hrow
  by_cases hx : x.toNat < m.length
  · rcases List.mem_or_eq_of_mem_set hrow with h | h
    · exact hrows _ h
    · have hgd : m.getD x.toNat [] = m[x.toNat] := by
        rw [List.getD_eq_getElem?_getD, List.getElem?_eq_getElem hx]
        rfl
      rw [h, List.length_set, hgd]
      exact hrows _ (List.getElem_mem hx)
  · rw [setTile, List.set_eq_of_length_le (by omega)] at hrow
    exact hrows _ hrow

/-- Row extraction under well-formedness. -/
theorem wellFormed_row {m : Map} {W H : Nat} (hwf : wellFormed m W H) {i : Nat}
    (hi : i < W) : (m.getD i []).length = H := by
  have hi' : i < m.length := by
    rw [hwf.1]
    exact hi
  rw [List.getD_eq_getElem?_getD, List.getElem?_eq_getElem hi']
  exact hwf.2 _ (List.getElem_mem hi')

theorem wellFormed_carveCol {W H : Nat} (x : Int) (ys : List Int) :
    ∀ m : Map, wellFormed m W H → wellFormed (carveCol x ys m) W H := by
  induction ys with
  | nil => exact fun m h => h
  | cons yy tl ih => exact fun m h => ih _ (wellFormed_setTile h x yy Tile.empty)

theorem wellFormed_carveRect {W H : Nat} (xs ys : List Int) :
    ∀ m : Map, wellFormed m W H → wellFormed (carveRect xs ys m) W H := by
  induction xs with
  | nil => exact fun m h => h
  | cons xx tl ih => exact fun m h => ih _ (wellFormed_carveCol xx ys m h)

/-- A carved column never un-carves a tile that is already empty. -/
theorem tileAt_carveCol_keepEmpty (x : Int) (ys : List Int) :
    ∀ (m : Map) (x' y' : Int), tileAt m x' y' = Tile.empty →
      tileAt (carveCol x ys m) x' y' = Tile.empty := by
  induction ys with
  | nil => exact fun m _ _ h => h
  | cons yy tl ih =>
      intro m x' y' h
      apply ih
      rw [tileAt_setTile]
      split
      · rfl
      · exact h

theorem tileAt_carveRect_keepEmpty (xs ys : List Int) :
    ∀ (m : Map) (x' y' : Int), tileAt m x' y' = Tile.empty →
      tileAt (carveRect xs ys m) x' y' = Tile.empty := by
  induction xs with
  | nil => exact fun m _ _ h => h
  | cons xx tl ih =>
      intro m x' y' h
      exact ih _ _ _ (tileAt_carveCol_keepEmpty xx ys m x' y' h)

/-- Frame property of a carved column: positions matching no write are untouched. -/
theorem tileAt_carveCol_ne (x : Int) (ys : List Int) :
    ∀ (m : Map) (x' y' : Int),
      (∀ yy ∈ ys, x'.toNat ≠ x.toNat ∨ y'.toNat ≠ yy.toNat) →
      tileAt (carveCol x ys m) x' y' = tileAt m x' y' := by
  induction ys with
  | nil => exact fun m _ _ _ => rfl
  | cons yy tl ih =>
      intro m x' y' h
      rw [show carveCol x (yy :: tl) m = carveCol x tl (setTile m x yy Tile.empty) from rfl]
      rw [ih _ _ _ (fun z hz => h z (List.mem_cons_of_mem _ hz))]
      rw [tileAt_setTile]
      rcases h yy (List.mem_cons_self _ _) with hc | hc
      · exact if_neg (fun hcon => hc hcon.1)
      · exact if_neg (fun hcon => hc hcon.2.1)

theorem tileAt_carveRect_ne (xs ys : List Int) :
    ∀ (m : Map) (x' y' : Int),
      (∀ xx ∈ xs, ∀ yy ∈ ys, x'.toNat ≠ xx.toNat ∨ y'.toNat ≠ yy.toNat) →
      tileAt (carveRect xs ys m) x' y' = tileAt m x' y' := by
  induction xs with
  | nil => exact fun m _ _ _ => rfl
  | cons xx tl ih =>
      intro m x' y' h
      rw [show carveRect (xx :: tl) ys m = carveRect tl ys (carveCol xx ys m) from rfl]
      rw [ih _ _ _ (fun z hz => h z (List.mem_cons_of_mem _ hz))]
      exact tileAt_carveCol_ne xx ys m x' y' (h xx (List.mem_cons_self _ _))

/-- A carved column writes `Tile.empty` at every in-bounds matching position. -/
theorem tileAt_carveCol_mem {W H : Nat} (x : Int) (ys : List Int) :
    ∀ m : Map, wellFormed m W H → ∀ x' y' : Int,
      x'.toNat = x.toNat → x'.toNat < W → y'.toNat < H →
      (∃ yy ∈ ys, y'.toNat = yy.toNat) →
      tileAt (carveCol x ys m) x' y' = Tile.empty := by
  induction ys with
  | nil =>
      rintro m _ x' y' _ _ _ ⟨yy, hmem, _⟩
      cases hmem
  | cons z tl ih =>
      rintro m hwf x' y' hxx hxW hyH ⟨yy, hmem, hyy⟩
      rw [show carveCol x (z :: tl) m = carveCol x tl (setTile m x z Tile.empty) from rfl]
      by_cases hz : y'.toNat = z.toNat
      · apply tileAt_carveCol_keepEmpty
        rw [tileAt_setTile, if_pos]
        refine ⟨hxx, hz, ?_, ?_⟩
        · rw [hwf.1]
          omega
        · rw [wellFormed_row hwf (show x.toNat < W by omega)]
          omega
      · rcases List.mem_cons.mp hmem with rfl | hmem'
        · exact absurd hyy hz
        · exact ih _ (wellFormed_setTile hwf x z Tile.empty) x' y' hxx hxW hyH ⟨yy, hmem', hyy⟩

theorem tileAt_carveRect_mem {W H : Nat} (xs ys : List Int) :
    ∀ m : Map, wellFormed m W H → ∀ x' y' : Int,
      x'.toNat < W → y'.toNat < H →
      (∃ xx ∈ xs, x'.toNat = xx.toNat) → (∃ yy ∈ ys, y'.toNat = yy.toNat) →
      tileAt (carveRect xs ys m) x' y' = Tile.empty := by
  induction xs with
  | nil =>
      rintro m _ x' y' _ _ ⟨xx, hmem, _⟩ _
      cases hmem
  | cons xx tl ih =>
      rintro m hwf x' y' hxW hyH ⟨xx0, hmem, hxx0⟩ hy
      rw [show carveRect (xx :: tl) ys m = carveRect tl ys (carveCol xx ys m) from rfl]
      by_cases hx : x'.toNat = xx.toNat
      · apply tileAt_carveRect_keepEmpty
        exact tileAt_carveCol_mem xx ys m hwf x' y' hx hxW hyH hy
      · rcases List.mem_cons.mp hmem with rfl | hmem'
        · exact absurd hxx0 hx
        · exact ih _ (wellFormed_carveCol xx ys m hwf) x' y' hxW hyH ⟨xx0, hmem', hxx0⟩ hy

/-- Characterization of the nested carving loops on nonnegative coordinates. -/
theorem tileAt_carveRect_char {W H : Nat} (xs ys : List Int) (m : Map)
    (hwf : wellFormed m W H)
    (hxs : ∀ xx ∈ xs, 0 ≤ xx) (hys : ∀ yy ∈ ys, 0 ≤ yy)
    (x y : Int) (hx0 : 0 ≤ x) (hxW : x < (W : Int)) (hy0 : 0 ≤ y) (hyH : y < (H : Int)) :
    tileAt (carveRect xs ys m) x y =
      if x ∈ xs ∧ y ∈ ys then Tile.empty else tileAt m x y := by
  by_cases hmem : x ∈ xs ∧ y ∈ ys
  · rw [if_pos hmem]
    exact tileAt_carveRect_mem xs ys m hwf x y (by omega) (by omega)
      ⟨x, hmem.1, rfl⟩ ⟨y, hmem.2, rfl⟩
  · rw [if_neg hmem]
    apply tileAt_carveRect_ne
    intro xx hxx yy hyy
    rcases Decidable.not_and_iff_or_not.mp hmem with hnx | hny
    · left
      have hne : x ≠ xx := fun hcon => hnx (hcon ▸ hxx)
      have := hxs xx hxx
      omega
    · right
      have hne : y ≠ yy := fun hcon => hny (hcon ▸ hyy)
      have := hys yy hyy
      omega

/-- Membership in the embedded Rust range `lo..hi`. -/
theorem mem_intRange {lo hi x : Int} : x ∈ intRange lo hi ↔ lo ≤ x ∧ x < hi := by
  constructor
  · intro h
    rw [intRange] at h
    obtain ⟨i, hi', hx⟩ := List.mem_map.mp h
    rw [List.mem_range] at hi'
    omega
  · intro h
    rw [intRange]
    apply List.mem_map.mpr
    refine ⟨(x - lo).toNat, ?_, by omega⟩
    rw [List.mem_range]
    omega

/-- Characterization of `create_room`: exactly the strict interior of the
rectangle becomes empty; every other in-bounds tile is untouched. -/
theorem tileAt_create_room {W H : Nat} (room : Rect) (m : Map)
    (hwf : wellFormed m W H) (hx1 : 0 ≤ room.x1) (hy1 : 0 ≤ room.y1)
    (x y : Int) (hx0 : 0 ≤ x) (hxW : x < (W : Int)) (hy0 : 0 ≤ y) (hyH : y < (H : Int)) :
    tileAt (create_room room m) x y =
      if room.x1 < x ∧ x < room.x2 ∧ room.y1 < y ∧ y < room.y2 then Tile.empty
      else tileAt m x y := by
  rw [create_room, tileAt_carveRect_char _ _ _ hwf
    (fun xx hxx => by rw [mem_intRange] at hxx; omega)
    (fun yy hyy => by rw [mem_intRange] at hyy; omega) x y hx0 hxW hy0 hyH]
  by_cases h : room.x1 < x ∧ x < room.x2 ∧ room.y1 < y ∧ y < room.y2
  · rw [if_pos h, if_pos ⟨mem_intRange.mpr (by omega), mem_intRange.mpr (by omega)⟩]
  · rw [if_neg h, if_neg]
    intro hcon
    rw [mem_intRange] at hcon
    rcases hcon with ⟨h1, h2⟩
    rw [mem_intRange] at h2
    omega

theorem wellFormed_create_room {W H : Nat} (room : Rect) (m : Map)
    (hwf : wellFormed m W H) : wellFormed (create_room room m) W H :=
  wellFormed_carveRect _ _ m hwf

/-- Characterization of `create_tunnel`: the full closed coordinate rectangle
spanned by the two endpoint pairs becomes empty; nothing else changes. -/
theorem tileAt_create_tunnel {W H : Nat} (x1 x2 y y2 : Int) (m : Map)
    (hwf : wellFormed m W H) (hx1 : 0 ≤ min x1 x2) (hy1 : 0 ≤ min y y2)
    (x' y' : Int) (hx0 : 0 ≤ x') (hxW : x' < (W : Int)) (hy0 : 0 ≤ y') (hyH : y' < (H : Int)) :
    tileAt (create_tunnel x1 x2 y y2 m) x' y' =
      if min x1 x2 ≤ x' ∧ x' ≤ max x1 x2 ∧ min y y2 ≤ y' ∧ y' ≤ max y y2 then Tile.empty
      else tileAt m x' y' := by
  rw [create_tunnel, tileAt_carveRect_char _ _ _ hwf
    (fun xx hxx => by rw [mem_intRange] at hxx; omega)
    (fun yy hyy => by rw [mem_intRange] at hyy; omega) x' y' hx0 hxW hy0 hyH]
  by_cases h : min x1 x2 ≤ x' ∧ x' ≤ max x1 x2 ∧ min y y2 ≤ y' ∧ y' ≤ max y y2
  · rw [if_pos h, if_pos ⟨mem_intRange.mpr (by omega), mem_intRange.mpr (by omega)⟩]
  · rw [if_neg h, if_neg]
    intro hcon
    rw [mem_intRange] at hcon
    rcases hcon with ⟨h1, h2⟩
    rw [mem_intRange] at h2
    omega

/-- The freshly initialized grid reads as wall everywhere. -/
theorem tileAt_initialMap (x y : Int) : tileAt initialMap x y = Tile.wall := by
  rw [tileAt, initialMap]
  simp only [List.getD_eq_getElem?_getD]
  rw [List.getElem?_replicate]
  by_cases h : x.toNat < MAP_WIDTH.toNat
  · rw [if_pos h]
    rw [Option.getD_some, List.getElem?_replicate]
    by_cases h2 : y.toNat < MAP_HEIGHT.toNat
    · rw [if_pos h2]
      rfl
    · rw [if_neg h2]
      rfl
  · rw [if_neg h]
    rfl

theorem wellFormed_initialMap : wellFormed initialMap MAP_WIDTH.toNat MAP_HEIGHT.toNat := by
  constructor
  · rw [initialMap, List.length_replicate]
  · intro row hrow
    rw [List.eq_of_mem_replicate hrow, List.length_replicate]

end MapLemmas

/-- Claim C5: `create_room` sets exactly the tiles strictly inside its rectangle
to the empty tile and leaves every other tile of the grid, in particular the
boundary ring at `x1`, `x2`, `y1`, `y2`, unchanged. -/
theorem C5_create_room_carves_strict_interior {W H : Nat} (room : Rect) (m : Map)
    (hwf : wellFormed m W H) (hx1 : 0 ≤ room.x1) (hy1 : 0 ≤ room.y1)
    (x y : Int) (hx0 : 0 ≤ x) (hxW : x < (W : Int)) (hy0 : 0 ≤ y) (hyH : y < (H : Int)) :
    ((room.x1 < x ∧ x < room.x2 ∧ room.y1 < y ∧ y < room.y2) →
        tileAt (create_room room m) x y = Tile.empty) ∧
    ((x = room.x1 ∨ x = room.x2 ∨ y = room.y1 ∨ y = room.y2 ∨
        ¬(room.x1 < x ∧ x < room.x2 ∧ room.y1 < y ∧ y < room.y2)) →
        tileAt (create_room room m) x y = tileAt m x y) := by
  rw [tileAt_create_room room m hwf hx1 hy1 x y hx0 hxW hy0 hyH]
  constructor
  · intro h
    rw [if_pos h]
  · intro h
    rw [if_neg]
    intro hcon
    rcases h with h | h | h | h | h <;> omega

/-- Witness for C5: carving room `(1,1)..(6,6)` in the initial grid turns the
interior point `(2,2)` empty and leaves the corner `(1,1)` a wall. -/
theorem C5_witness :
    (wellFormed initialMap MAP_WIDTH.toNat MAP_HEIGHT.toNat ∧
      (0 : Int) ≤ 1 ∧ (0 : Int) ≤ 2 ∧ (2 : Int) < (MAP_WIDTH.toNat : Int)) ∧
    tileAt (create_room (Rect.new 1 1 5 5) initialMap) 2 2 = Tile.empty ∧
    tileAt (create_room (Rect.new 1 1 5 5) initialMap) 1 1 = tileAt initialMap 1 1 :=
  ⟨⟨wellFormed_initialMap, by decide, by decide, by decide⟩,
   (C5_create_room_carves_strict_interior (Rect.new 1 1 5 5) initialMap
      wellFormed_initialMap (by decide) (by decide) 2 2
      (by decide) (by decide) (by decide) (by decide)).1 (by decide),
   (C5_create_room_carves_strict_interior (Rect.new 1 1 5 5) initialMap
      wellFormed_initialMap (by decide) (by decide) 1 1
      (by decide) (by decide) (by decide) (by decide)).2 (Or.inl rfl)⟩

/-- Claim C7, counterexample: `create_tunnel` is a double loop, so with
endpoints `(0,0)` and `(2,2)` it carves a full 3-by-3 block, turning `(1,0)`,
`(0,1)` and `(1,1)` all empty.  No single straight 1-tile-thick horizontal or
vertical line contains both `(1,0)` and `(0,1)`, so the operation does not
carve only a straight line between two coordinates. -/
theorem C7_counterexample :
    tileAt (create_tunnel 0 2 0 2 initialMap) 1 0 = Tile.empty ∧
    tileAt (create_tunnel 0 2 0 2 initialMap) 0 1 = Tile.empty ∧
    tileAt (create_tunnel 0 2 0 2 initialMap) 1 1 = Tile.empty ∧
    tileAt initialMap 1 0 = Tile.wall ∧
    tileAt initialMap 0 1 = Tile.wall ∧
    ((1 : Int) ≠ 0 ∧ (0 : Int) ≠ 1) := by
  refine ⟨?_, ?_, ?_, ?_, ?_, by decide⟩ <;> decide

/-- Claim C7 as amended: `create_tunnel(x1, x2, y, y2)` carves the filled
axis-aligned coordinate rectangle spanned inclusively by the two endpoint
pairs, accepting either ordering through `min`/`max`, and changes no other tile;
when `y = y2` this degenerates to the straight 1-tile-thick inclusive horizontal
line of the original claim, and symmetrically when `x1 = x2`. -/
theorem C7_create_tunnel_carves_closed_block {W H : Nat} (x1 x2 y y2 : Int) (m : Map)
    (hwf : wellFormed m W H) (hx1 : 0 ≤ min x1 x2) (hy1 : 0 ≤ min y y2)
    (x' y' : Int) (hx0 : 0 ≤ x') (hxW : x' < (W : Int)) (hy0 : 0 ≤ y') (hyH : y' < (H : Int)) :
    tileAt (create_tunnel x1 x2 y y2 m) x' y' =
      if min x1 x2 ≤ x' ∧ x' ≤ max x1 x2 ∧ min y y2 ≤ y' ∧ y' ≤ max y y2 then Tile.empty
      else tileAt m x' y' :=
  tileAt_create_tunnel x1 x2 y y2 m hwf hx1 hy1 x' y' hx0 hxW hy0 hyH

/-- Witness for C7's amended theorem: a horizontal tunnel from `x = 3` to
`x = 7` at `y = 5` carved into the fresh grid, read at `(4, 5)`. -/
theorem C7_witness :
    (wellFormed initialMap MAP_WIDTH.toNat MAP_HEIGHT.toNat ∧
      (0 : Int) ≤ min 3 7 ∧ (0 : Int) ≤ min 5 5) ∧
    tileAt (create_tunnel 3 7 5 5 initialMap) 4 5 =
      (if min (3 : Int) 7 ≤ 4 ∧ (4 : Int) ≤ max 3 7 ∧ min (5 : Int) 5 ≤ 5 ∧ (5 : Int) ≤ max 5 5
        then Tile.empty else tileAt initialMap 4 5) :=
  ⟨⟨wellFormed_initialMap, by decide, by decide⟩,
   C7_create_tunnel_carves_closed_block 3 7 5 5 initialMap wellFormed_initialMap
     (by decide) (by decide) 4 5 (by decide) (by decide) (by decide) (by decide)⟩

/-- Claim C3: for an entity and a target position in bounds, `move_by` commits
the move exactly onto a non-blocked target, changing the position to precisely
`(x+dx, y+dy)`; on a blocked target it leaves the entity unchanged and surfaces
nothing; after a committed move the occupied tile is not blocked. -/
theorem C3_move_by_commit_or_noop {W H : Nat} (o : Object) (dx dy : Int) (g : Game)
    (hwf : wellFormed g.map W H)
    (hx : 0 ≤ o.x) (hxW : o.x < (W : Int)) (hy : 0 ≤ o.y) (hyH : o.y < (H : Int))
    (htx : 0 ≤ o.x + dx) (htxW : o.x + dx < (W : Int))
    (hty : 0 ≤ o.y + dy) (htyH : o.y + dy < (H : Int)) :
    ((tileAt g.map (o.x + dx) (o.y + dy)).blocked = false →
        (Object.move_by o dx dy g).x = o.x + dx ∧
        (Object.move_by o dx dy g).y = o.y + dy ∧
        (tileAt g.map (Object.move_by o dx dy g).x (Object.move_by o dx dy g).y).blocked
          = false) ∧
    ((tileAt g.map (o.x + dx) (o.y + dy)).blocked = true →
        Object.move_by o dx dy g = o) := by
  constructor
  · intro h
    rw [Object.move_by, if_pos h]
    exact ⟨rfl, rfl, h⟩
  · intro h
    rw [Object.move_by, if_neg]
    rw [h]
    simp

/-- Witness for C3: bumping from `(1,1)` into the wall at `(2,1)` of the fresh
all-wall grid leaves the entity unchanged. -/
theorem C3_witness :
    (wellFormed initialMap MAP_WIDTH.toNat MAP_HEIGHT.toNat ∧
      (tileAt initialMap 2 1).blocked = true) ∧
    Object.move_by { x := 1, y := 1, char := 'a', color := { r := 0, g := 0, b := 0 } } 1 0
        { map := initialMap } =
      { x := 1, y := 1, char := 'a', color := { r := 0, g := 0, b := 0 } } :=
  ⟨⟨wellFormed_initialMap, by decide⟩,
   (@C3_move_by_commit_or_noop MAP_WIDTH.toNat MAP_HEIGHT.toNat
      { x := 1, y := 1, char := 'a', color := { r := 0, g := 0, b := 0 } } 1 0
      { map := initialMap } wellFormed_initialMap
      (by decide) (by decide) (by decide) (by decide)
      (by decide) (by decide) (by decide) (by decide)).2 (by decide)⟩

/-- Claim C9, counterexample: `move_by` returns no moved-flag.  Moving `walkerA`
right commits a move and moving `walkerB` right is a blocked no-op, yet the two
calls return the very same object, so no function of the operation's result can
report whether the entity actually moved. -/
theorem C9_counterexample :
    Object.move_by walkerA 1 0 narrowGame = Object.move_by walkerB 1 0 narrowGame ∧
    movedBy walkerA 1 0 narrowGame ∧
    ¬ movedBy walkerB 1 0 narrowGame ∧
    ¬ ∃ f : Object → Bool, ∀ (o : Object) (dx dy : Int) (g : Game),
        (f (Object.move_by o dx dy g) = true ↔ movedBy o dx dy g) := by
  refine ⟨by decide, by decide, by decide, ?_⟩
  rintro ⟨f, hf⟩
  have hA := hf walkerA 1 0 narrowGame
  have hB := hf walkerB 1 0 narrowGame
  have heq : Object.move_by walkerA 1 0 narrowGame = Object.move_by walkerB 1 0 narrowGame := by
    decide
  rw [heq] at hA
  have h1 : movedBy walkerA 1 0 narrowGame := by decide
  have h2 : ¬ movedBy walkerB 1 0 narrowGame := by decide
  exact h2 (hB.mp (hA.mpr h1))

/-- Claim C9 as amended: the movement operation returns only the updated entity
and no success indicator; whether the entity actually moved is instead exactly:
the target tile was not blocked and the delta was nonzero, which a caller can
recover only by comparing positions before and after the call. -/
theorem C9_moved_iff_target_free_and_delta_nonzero (o : Object) (dx dy : Int) (g : Game) :
    movedBy o dx dy g ↔
      ((tileAt g.map (o.x + dx) (o.y + dy)).blocked = false ∧ ¬(dx = 0 ∧ dy = 0)) := by
  obtain ⟨ox, oy, oc, ocol⟩ := o
  rw [movedBy, Object.move_by]
  dsimp only
  by_cases h : (tileAt g.map (ox + dx) (oy + dy)).blocked = false
  · rw [if_pos h]
    constructor
    · intro hne
      refine ⟨h, ?_⟩
      rintro ⟨rfl, rfl⟩
      exact hne (by simp)
    · rintro ⟨-, hnz⟩ hcon
      rw [Object.mk.injEq] at hcon
      exact hnz ⟨by omega, by omega⟩
  · rw [if_neg h]
    simp [h]

/-- The modelled `random_range` meets its contract on a nonempty range. -/
theorem random_range_bounds (lo hi : Int) (s : RngState) (h : lo < hi) :
    lo ≤ (random_range lo hi s).1 ∧ (random_range lo hi s).1 < hi := by
  rw [random_range]
  have h1 : (0 : Int) ≤ (s.stream s.idx : Int) % (hi - lo) :=
    Int.emod_nonneg _ (by omega)
  have h2 : (s.stream s.idx : Int) % (hi - lo) < hi - lo :=
    Int.emod_lt_of_pos _ (by omega)
  dsimp only
  omega

/-- Case analysis on one generation step: either the candidate was rejected and
the map and rooms are unchanged, or an in-bounds candidate room intersecting no
accepted room was carved into the map and appended to the rooms. -/
theorem genStep_cases (st : GenState) :
    ((genStep st).map = st.map ∧ (genStep st).rooms = st.rooms) ∨
    (∃ room : Rect,
      (st.rooms.any fun other => room.intersects_with other) = false ∧
      0 ≤ room.x1 ∧ room.x1 < room.x2 ∧ room.x2 ≤ MAP_WIDTH - 1 ∧
      0 ≤ room.y1 ∧ room.y1 < room.y2 ∧ room.y2 ≤ MAP_HEIGHT - 1 ∧
      (genStep st).map = create_room room st.map ∧
      (genStep st).rooms = st.rooms ++ [room]) := by
  have hMW : MAP_WIDTH = 80 := rfl
  have hMH : MAP_HEIGHT = 45 := rfl
  have hmin : ROOM_MIN_SIZE = 6 := rfl
  have hmax : ROOM_MAX_SIZE = 10 := rfl
  rw [genStep]
  dsimp only
  set p1 := random_range ROOM_MIN_SIZE (ROOM_MAX_SIZE + 1) st.rng with hp1
  set p2 := random_range ROOM_MIN_SIZE (ROOM_MAX_SIZE + 1) p1.2 with hp2
  set p3 := random_range 0 (MAP_WIDTH - p1.1) p2.2 with hp3
  set p4 := random_range 0 (MAP_HEIGHT - p2.1) p3.2 with hp4
  have hw := random_range_bounds ROOM_MIN_SIZE (ROOM_MAX_SIZE + 1) st.rng (by omega)
  rw [← hp1] at hw
  have hh := random_range_bounds ROOM_MIN_SIZE (ROOM_MAX_SIZE + 1) p1.2 (by omega)
  rw [← hp2] at hh
  have hx := random_range_bounds 0 (MAP_WIDTH - p1.1) p2.2 (by omega)
  rw [← hp3] at hx
  have hy := random_range_bounds 0 (MAP_HEIGHT - p2.1) p3.2 (by omega)
  rw [← hp4] at hy
  by_cases hfail :
      (st.rooms.any fun other => (Rect.new p3.1 p4.1 p1.1 p2.1).intersects_with other) = false
  · rw [if_pos hfail]
    right
    refine ⟨Rect.new p3.1 p4.1 p1.1 p2.1, hfail, ?_, ?_, ?_, ?_, ?_, ?_, rfl, rfl⟩ <;>
      (dsimp only [Rect.new]; omega)
  · rw [if_neg hfail]
    left
    exact ⟨rfl, rfl⟩

/-- One generation step preserves both invariants. -/
theorem genStep_inv {st : GenState} (h : roomsInv st.rooms ∧ mapInv st.map) :
    roomsInv (genStep st).rooms ∧ mapInv (genStep st).map := by
  have hMW : MAP_WIDTH = 80 := rfl
  have hMH : MAP_HEIGHT = 45 := rfl
  have hMWn : ((MAP_WIDTH.toNat : Nat) : Int) = 80 := rfl
  have hMHn : ((MAP_HEIGHT.toNat : Nat) : Int) = 45 := rfl
  rcases genStep_cases st with ⟨hm, hr⟩ | ⟨room, hfail, hb1, hb2, hb3, hb4, hb5, hb6, hm, hr⟩
  · rw [hm, hr]
    exact h
  · rw [hm, hr]
    obtain ⟨⟨hpair, hbounds⟩, hwf, hborder⟩ := h
    refine ⟨⟨?_, ?_⟩, ?_, ?_⟩
    · rw [List.pairwise_append]
      refine ⟨hpair, List.pairwise_singleton _ _, ?_⟩
      intro a ha b hbmem
      rw [List.mem_singleton] at hbmem
      subst hbmem
      have hne := List.any_eq_false.mp hfail a ha
      rw [intersects_with_comm]
      rcases hcase : b.intersects_with a with _ | _
      · rfl
      · exact absurd hcase hne
    · intro r hrmem
      rcases List.mem_append.mp hrmem with h' | h'
      · exact hbounds r h'
      · rw [List.mem_singleton] at h'
        subst h'
        exact ⟨hb1, hb2, hb3, hb4, hb5, hb6⟩
    · exact wellFormed_create_room room st.map hwf
    · intro x y hx0 hxW hy0 hyH hedge
      rw [tileAt_create_room room st.map hwf hb1 hb4 x y hx0 (by omega) hy0 (by omega)]
      rw [if_neg (by omega)]
      exact hborder x y hx0 hxW hy0 hyH hedge

/-- The loop of `make_map` preserves both invariants. -/
theorem genLoop_inv (n : Nat) :
    ∀ st : GenState, roomsInv st.rooms ∧ mapInv st.map →
      roomsInv (genLoop n st).rooms ∧ mapInv (genLoop n st).map := by
  induction n with
  | zero => exact fun st h => h
  | succ k ih => exact fun st h => ih _ (genStep_inv h)

/-- Every run of `make_map` satisfies both invariants at the end. -/
theorem make_map_state_inv (player : Object) (rng : RngState) :
    roomsInv (make_map_state player rng).rooms ∧ mapInv (make_map_state player rng).map := by
  apply genLoop_inv
  refine ⟨⟨List.Pairwise.nil, ?_⟩, wellFormed_initialMap, ?_⟩
  · intro r hr
    cases hr
  · intro x y _ _ _ _ _
    exact tileAt_initialMap x y

/-- Claim C2: at the end of every generation run the accepted rectangles are
pairwise non-intersecting under the inclusive test, so any two of them are
separated by a gap of at least one tile on some axis. -/
theorem C2_rooms_pairwise_disjoint (player : Object) (rng : RngState) :
    ((make_map_state player rng).rooms).Pairwise
      (fun a b => a.intersects_with b = false ∧
        (a.x2 < b.x1 ∨ b.x2 < a.x1 ∨ a.y2 < b.y1 ∨ b.y2 < a.y1)) := by
  have h := (make_map_state_inv player rng).1.1
  refine h.imp ?_
  intro a b hab
  refine ⟨hab, ?_⟩
  have hiff := intersects_with_true_iff a b
  rw [hab] at hiff
  simp only [Bool.false_eq_true, false_iff] at hiff
  by_contra hcon
  push_neg at hcon
  exact hiff ⟨hcon.2.1, hcon.1, hcon.2.2.2, hcon.2.2.1⟩

/-- Claim C6: in every generated grid the accepted rectangles satisfy
`x2 = x + w ≤ W` and `y2 = y + h ≤ H` (indeed they stay one tile short of the
edge), all coordinates touched while carving any accepted room are in bounds,
and the whole outermost border of the grid remains wall. -/
theorem C6_rooms_in_bounds_and_border_wall (player : Object) (rng : RngState) :
    (∀ r ∈ (make_map_state player rng).rooms,
        r.x2 ≤ MAP_WIDTH ∧ r.y2 ≤ MAP_HEIGHT) ∧
    (∀ r ∈ (make_map_state player rng).rooms, ∀ x y : Int,
        r.x1 < x → x < r.x2 → r.y1 < y → y < r.y2 →
        0 ≤ x ∧ x < MAP_WIDTH ∧ 0 ≤ y ∧ y < MAP_HEIGHT) ∧
    (∀ x y : Int, 0 ≤ x → x < MAP_WIDTH → 0 ≤ y → y < MAP_HEIGHT →
        (x = 0 ∨ x = MAP_WIDTH - 1 ∨ y = 0 ∨ y = MAP_HEIGHT - 1) →
        tileAt (make_map_state player rng).map x y = Tile.wall) := by
  obtain ⟨⟨-, hbounds⟩, -, hborder⟩ := make_map_state_inv player rng
  refine ⟨?_, ?_, hborder⟩
  · intro r hr
    have := hbounds r hr
    omega
  · intro r hr x y h1 h2 h3 h4
    have := hbounds r hr
    omega

/-- Witness for C6: in the all-zero run, the corner tile `(0, 0)` of the
finished grid is still a wall. -/
theorem C6_witness :
    ((0 : Int) ≤ 0 ∧ (0 : Int) < MAP_WIDTH ∧ (0 : Int) < MAP_HEIGHT) ∧
    tileAt (make_map_state basePlayer zeroRng).map 0 0 = Tile.wall :=
  ⟨⟨by decide, by decide, by decide⟩,
   (C6_rooms_in_bounds_and_border_wall basePlayer zeroRng).2.2 0 0
     (by decide) (by decide) (by decide) (by decide) (Or.inl rfl)⟩

/-- Discrete intermediate-value property of walks: a chain of axis-aligned unit
steps starting strictly left of column `c` and ending at or right of it passes
through column `c`. -/
theorem chain_crossing (c : Int) :
    ∀ (l : List (Int × Int)) (a b : Int × Int), l.Chain' isStep →
      l.head? = some a → l.getLast? = some b → a.1 < c → c ≤ b.1 →
      ∃ q ∈ l, q.1 = c := by
  intro l
  induction l with
  | nil =>
      intro a b _ hhead _ _ _
      cases hhead
  | cons p tl ih =>
      intro a b hchain hhead hlast ha hb
      rw [List.head?_cons, Option.some.injEq] at hhead
      subst hhead
      cases tl with
      | nil =>
          rw [show ([p] : List (Int × Int)).getLast? = some p from rfl,
            Option.some.injEq] at hlast
          subst hlast
          omega
      | cons q t =>
          rw [List.getLast?_cons_cons] at hlast
          rw [List.chain'_cons] at hchain
          by_cases hq : q.1 < c
          · obtain ⟨r, hr, hrc⟩ := ih q b hchain.2 rfl hlast hq hb
            exact ⟨r, List.mem_cons_of_mem _ hr, hrc⟩
          · have hstep := hchain.1
            rw [isStep] at hstep
            have hqc : q.1 = c := by
              rcases hstep with ⟨h1, -⟩ | ⟨h1, -⟩ | ⟨h1, -⟩ | ⟨h1, -⟩ <;> omega
            exact ⟨q, List.mem_cons_of_mem _ (List.mem_cons_self _ _), hqc⟩

/-- In the `chainStream` run exactly the two rooms are accepted, in order. -/
theorem chainRun_rooms :
    (make_map_state basePlayer chainRng).rooms =
      [{ x1 := 0, y1 := 0, x2 := 6, y2 := 6 },
       { x1 := 20, y1 := 20, x2 := 26, y2 := 26 }] := by
  decide

/-- The finished map of the `chainStream` run is the two carved rooms and
nothing else: `make_map` never calls `create_tunnel`. -/
theorem chainRun_map :
    (make_map_state basePlayer chainRng).map =
      create_room { x1 := 20, y1 := 20, x2 := 26, y2 := 26 }
        (create_room { x1 := 0, y1 := 0, x2 := 6, y2 := 6 } initialMap) := by
  rfl

/-- Claim C1, evaluation at the failing input: in the `chainStream` run the
generator accepts exactly the rooms centered at `(3,3)` and `(23,23)`,
consecutively, yet no corridor is carved — `make_map` never calls
`create_tunnel` — and no path of in-bounds non-blocked tiles joined by
axis-aligned unit steps connects the two centers: every tile of column `x = 10`
is still a wall, and any such path would have to cross that column. -/
theorem C1_no_corridor_centers_disconnected :
    (make_map_state basePlayer chainRng).rooms =
      [{ x1 := 0, y1 := 0, x2 := 6, y2 := 6 },
       { x1 := 20, y1 := 20, x2 := 26, y2 := 26 }] ∧
    Rect.center { x1 := 0, y1 := 0, x2 := 6, y2 := 6 } = (3, 3) ∧
    Rect.center { x1 := 20, y1 := 20, x2 := 26, y2 := 26 } = (23, 23) ∧
    ¬ connected (make_map_state basePlayer chainRng).map (3, 3) (23, 23) := by
  refine ⟨chainRun_rooms, by decide, by decide, ?_⟩
  rintro ⟨l, hhead, hlast, hchain, hall⟩
  obtain ⟨q, hq, hqc⟩ :=
    chain_crossing 10 l (3, 3) (23, 23) hchain hhead hlast (by decide) (by decide)
  obtain ⟨hqb, hqfree⟩ := hall q hq
  rw [inBoundsP] at hqb
  obtain ⟨hx0, hxW, hy0, hyH⟩ := hqb
  have hMW : MAP_WIDTH = 80 := rfl
  have hMH : MAP_HEIGHT = 45 := rfl
  have hMWn : ((MAP_WIDTH.toNat : Nat) : Int) = 80 := rfl
  have hMHn : ((MAP_HEIGHT.toNat : Nat) : Int) = 45 := rfl
  rw [chainRun_map] at hqfree
  have hwf1 : wellFormed (create_room { x1 := 0, y1 := 0, x2 := 6, y2 := 6 } initialMap)
      MAP_WIDTH.toNat MAP_HEIGHT.toNat :=
    wellFormed_create_room _ _ wellFormed_initialMap
  rw [tileAt_create_room _ _ hwf1 (by decide) (by decide) q.1 q.2
    hx0 (by omega) hy0 (by omega)] at hqfree
  rw [if_neg (show ¬((20 : Int) < q.1 ∧ q.1 < 26 ∧ (20 : Int) < q.2 ∧ q.2 < 26) by
    omega)] at hqfree
  rw [tileAt_create_room _ _ wellFormed_initialMap (by decide) (by decide) q.1 q.2
    hx0 (by omega) hy0 (by omega)] at hqfree
  rw [if_neg (show ¬((0 : Int) < q.1 ∧ q.1 < 6 ∧ (0 : Int) < q.2 ∧ q.2 < 6) by
    omega)] at hqfree
  rw [tileAt_initialMap] at hqfree
  exact absurd hqfree (by decide)
